import Mathlib

/-!
Verification of the unit-quaternion module `quaternions/quaternion.py`.

The module defines `class Quaternion(GeneralQuaternion)`: unit quaternions
(versors) over the base algebra `GeneralQuaternion`.  Real numbers model the
floating-point scalars.  The base-algebra collaborator
(`quaternions/general_quaternion.py`) is not part of the sources; its
operations are modelled from the specification where needed and are marked
`Modelled from the spec:` below.  Fallible constructors return `Except`.
-/

namespace Quaternions

/-- Modelled from the spec: the base-algebra ("GeneralQuaternion") value — an
unrestricted 4-component quaternion with coordinates (qr, qi, qj, qk). -/
structure GeneralQuaternion where
  qr : ℝ
  qi : ℝ
  qj : ℝ
  qk : ℝ

/-- Modelled from the spec: the fixed default tolerance constant
`DEFAULT_TOLERANCE` exported by `general_quaternion.py` (the numerical
instability threshold used by the normalizing constructor). -/
noncomputable def DEFAULT_TOLERANCE : ℝ := 1e-8

/-- Modelled from the spec: the error taxonomy of the library (spec §7).  The
source raises at two distinct sites with two distinct messages; the class
itself lives in the missing `general_quaternion.py`. -/
inductive QuaternionError where
  | numericalInstability (msg : String)
  | unsupportedOperand (msg : String)
deriving DecidableEq

/-- Euclidean norm of the four coordinates: `np.linalg.norm([qr, qi, qj, qk])`. -/
noncomputable def gnorm (q : GeneralQuaternion) : ℝ :=
  Real.sqrt (q.qr ^ 2 + q.qi ^ 2 + q.qj ^ 2 + q.qk ^ 2)

/-- Modelled from the spec: base-algebra unary negation (coordinatewise). -/
def gneg (q : GeneralQuaternion) : GeneralQuaternion :=
  ⟨-q.qr, -q.qi, -q.qj, -q.qk⟩

/-- Modelled from the spec: base-algebra quaternion-scalar multiplication
(coordinatewise scaling). -/
def gscale (s : ℝ) (q : GeneralQuaternion) : GeneralQuaternion :=
  ⟨s * q.qr, s * q.qi, s * q.qj, s * q.qk⟩

/-- Modelled from the spec: base-algebra quaternion-quaternion multiplication
(the standard quaternion-algebra product). -/
def gmul (p q : GeneralQuaternion) : GeneralQuaternion :=
  ⟨p.qr * q.qr - p.qi * q.qi - p.qj * q.qj - p.qk * q.qk,
   p.qr * q.qi + p.qi * q.qr + p.qj * q.qk - p.qk * q.qj,
   p.qr * q.qj - p.qi * q.qk + p.qj * q.qr + p.qk * q.qi,
   p.qr * q.qk + p.qi * q.qj - p.qj * q.qi + p.qk * q.qr⟩

/-- Modelled from the spec: base-algebra coordinate-space Euclidean distance
`euclidean_distance(other)`. -/
noncomputable def euclidean_distance (p q : GeneralQuaternion) : ℝ :=
  Real.sqrt ((p.qr - q.qr) ^ 2 + (p.qi - q.qi) ^ 2 + (p.qj - q.qj) ^ 2 + (p.qk - q.qk) ^ 2)

/-- Modelled from the spec: base-algebra tolerance-bounded coordinate equality
`is_equal(other, tolerance)` (no sign folding). -/
def gIsEqual (p q : GeneralQuaternion) (tolerance : ℝ) : Prop :=
  |p.qr - q.qr| ≤ tolerance ∧ |p.qi - q.qi| ≤ tolerance ∧
  |p.qj - q.qj| ≤ tolerance ∧ |p.qk - q.qk| ≤ tolerance

/-- Modelled from the spec: the identity quaternion `unit() = (1, 0, 0, 0)`. -/
def gUnit : GeneralQuaternion := ⟨1, 0, 0, 0⟩

/-- `Quaternion.__init__(qr, qi, qj, qk)`: compute the Euclidean norm of the
input; if it is below `DEFAULT_TOLERANCE`, raise
`QuaternionError('provided numerically unstable quaternion: ...')`;
otherwise store the input divided by its norm. -/
noncomputable def quaternionNew (qr qi qj qk : ℝ) : Except QuaternionError GeneralQuaternion :=
  if gnorm ⟨qr, qi, qj, qk⟩ < DEFAULT_TOLERANCE then
    .error (.numericalInstability "provided numerically unstable quaternion")
  else
    .ok ⟨qr / gnorm ⟨qr, qi, qj, qk⟩, qi / gnorm ⟨qr, qi, qj, qk⟩,
         qj / gnorm ⟨qr, qi, qj, qk⟩, qk / gnorm ⟨qr, qi, qj, qk⟩⟩

/- ## Helper lemmas on the base algebra -/

lemma gnorm_nonneg (q : GeneralQuaternion) : 0 ≤ gnorm q :=
  Real.sqrt_nonneg _

lemma gnorm_eq_one_iff (q : GeneralQuaternion) :
    gnorm q = 1 ↔ q.qr ^ 2 + q.qi ^ 2 + q.qj ^ 2 + q.qk ^ 2 = 1 := by
  unfold gnorm
  exact Real.sqrt_eq_one

lemma gnorm_scale (s : ℝ) (q : GeneralQuaternion) :
    gnorm (gscale s q) = |s| * gnorm q := by
  unfold gnorm gscale
  have h : (s * q.qr) ^ 2 + (s * q.qi) ^ 2 + (s * q.qj) ^ 2 + (s * q.qk) ^ 2
      = s ^ 2 * (q.qr ^ 2 + q.qi ^ 2 + q.qj ^ 2 + q.qk ^ 2) := by ring
  rw [h, Real.sqrt_mul (sq_nonneg s), Real.sqrt_sq_eq_abs]

lemma tol_pos : (0 : ℝ) < DEFAULT_TOLERANCE := by
  unfold DEFAULT_TOLERANCE
  norm_num

lemma quaternionNew_ok {qr qi qj qk : ℝ}
    (h : ¬ gnorm ⟨qr, qi, qj, qk⟩ < DEFAULT_TOLERANCE) :
    quaternionNew qr qi qj qk =
      .ok ⟨qr / gnorm ⟨qr, qi, qj, qk⟩, qi / gnorm ⟨qr, qi, qj, qk⟩,
           qj / gnorm ⟨qr, qi, qj, qk⟩, qk / gnorm ⟨qr, qi, qj, qk⟩⟩ := by
  unfold quaternionNew
  rw [if_neg h]

lemma quaternionNew_error {qr qi qj qk : ℝ}
    (h : gnorm ⟨qr, qi, qj, qk⟩ < DEFAULT_TOLERANCE) :
    quaternionNew qr qi qj qk =
      .error (.numericalInstability "provided numerically unstable quaternion") := by
  unfold quaternionNew
  rw [if_pos h]

lemma gnorm_div_norm {qr qi qj qk : ℝ} (h : 0 < gnorm ⟨qr, qi, qj, qk⟩) :
    gnorm ⟨qr / gnorm ⟨qr, qi, qj, qk⟩, qi / gnorm ⟨qr, qi, qj, qk⟩,
           qj / gnorm ⟨qr, qi, qj, qk⟩, qk / gnorm ⟨qr, qi, qj, qk⟩⟩ = 1 := by
  set n := gnorm ⟨qr, qi, qj, qk⟩ with hn
  have hsc : (⟨qr / n, qi / n, qj / n, qk / n⟩ : GeneralQuaternion)
      = gscale n⁻¹ ⟨qr, qi, qj, qk⟩ := by
    unfold gscale
    simp [div_eq_inv_mul]
  rw [hsc, gnorm_scale, abs_of_pos (inv_pos.mpr h), ← hn, inv_mul_cancel₀ (ne_of_gt h)]

/-- C2: the four-number constructor raises the numerical-instability error
exactly when the Euclidean norm of the input is below the fixed threshold
(returning no value then); for norm at or above the threshold it returns the
input divided by its norm, whose coordinate norm is 1. -/
theorem constructor_normalizes (qr qi qj qk : ℝ) :
    ((∃ e, quaternionNew qr qi qj qk = .error e) ↔
        gnorm ⟨qr, qi, qj, qk⟩ < DEFAULT_TOLERANCE) ∧
    (DEFAULT_TOLERANCE ≤ gnorm ⟨qr, qi, qj, qk⟩ →
      ∃ p, quaternionNew qr qi qj qk = .ok p ∧
        p = ⟨qr / gnorm ⟨qr, qi, qj, qk⟩, qi / gnorm ⟨qr, qi, qj, qk⟩,
             qj / gnorm ⟨qr, qi, qj, qk⟩, qk / gnorm ⟨qr, qi, qj, qk⟩⟩ ∧
        gnorm p = 1) := by
  constructor
  · constructor
    · rintro ⟨e, he⟩
      by_contra hlt
      rw [quaternionNew_ok hlt] at he
      exact Except.noConfusion he
    · intro hlt
      exact ⟨_, quaternionNew_error hlt⟩
  · intro hge
    have hnot : ¬ gnorm ⟨qr, qi, qj, qk⟩ < DEFAULT_TOLERANCE := not_lt.mpr hge
    have hpos : 0 < gnorm ⟨qr, qi, qj, qk⟩ := lt_of_lt_of_le tol_pos hge
    exact ⟨_, quaternionNew_ok hnot, rfl, gnorm_div_norm hpos⟩

/-- Witness for C2 at the concrete input (3, 4, 0, 0), whose norm is 5. -/
theorem constructor_normalizes_witness :
    DEFAULT_TOLERANCE ≤ gnorm ⟨3, 4, 0, 0⟩ ∧
    ∃ p, quaternionNew 3 4 0 0 = .ok p ∧
      p = ⟨3 / gnorm ⟨3, 4, 0, 0⟩, 4 / gnorm ⟨3, 4, 0, 0⟩,
           0 / gnorm ⟨3, 4, 0, 0⟩, 0 / gnorm ⟨3, 4, 0, 0⟩⟩ ∧
      gnorm p = 1 := by
  have h5 : gnorm ⟨3, 4, 0, 0⟩ = 5 := by
    unfold gnorm
    rw [show ((3 : ℝ) ^ 2 + 4 ^ 2 + 0 ^ 2 + 0 ^ 2) = 5 ^ 2 by norm_num]
    exact Real.sqrt_sq (by norm_num)
  have hge : DEFAULT_TOLERANCE ≤ gnorm ⟨3, 4, 0, 0⟩ := by
    rw [h5]
    unfold DEFAULT_TOLERANCE
    norm_num
  exact ⟨hge, (constructor_normalizes 3 4 0 0).2 hge⟩

/- ## Equivalence and metric (`is_equal`, `distance`) -/

/-- `Quaternion.is_equal(other, tolerance)`: compares as rotations, i.e. up to
sign — base-algebra equality with `other` or with `-other`. -/
def quat_is_equal (p q : GeneralQuaternion) (tolerance : ℝ) : Prop :=
  gIsEqual p q tolerance ∨ gIsEqual p (gneg q) tolerance

/-- `Quaternion.distance(other)`: minimum of the Euclidean coordinate distance
to `other` and to `-other`. -/
noncomputable def qdistance (p q : GeneralQuaternion) : ℝ :=
  min (euclidean_distance p q) (euclidean_distance p (gneg q))

lemma gneg_gneg (q : GeneralQuaternion) : gneg (gneg q) = q := by
  unfold gneg
  simp

lemma euclidean_distance_self (q : GeneralQuaternion) : euclidean_distance q q = 0 := by
  unfold euclidean_distance
  simp

lemma euclidean_distance_nonneg (p q : GeneralQuaternion) :
    0 ≤ euclidean_distance p q := Real.sqrt_nonneg _

lemma gIsEqual_self (q : GeneralQuaternion) {tol : ℝ} (h : 0 ≤ tol) :
    gIsEqual q q tol := by
  unfold gIsEqual
  simp [h]

/-- C3: for unit quaternions, `is_equal(q, -q)` holds at the default tolerance,
`distance(q, -q)` is 0, and `distance(p, q)` is the minimum of the Euclidean
coordinate distances from `p` to `q` and from `p` to `-q`. -/
theorem double_cover_metric (p q : GeneralQuaternion)
    (hp : gnorm p = 1) (hq : gnorm q = 1) :
    quat_is_equal q (gneg q) DEFAULT_TOLERANCE ∧
    qdistance q (gneg q) = 0 ∧
    qdistance p q = min (euclidean_distance p q) (euclidean_distance p (gneg q)) := by
  refine ⟨?_, ?_, rfl⟩
  · right
    rw [gneg_gneg]
    exact gIsEqual_self q (le_of_lt tol_pos)
  · unfold qdistance
    rw [gneg_gneg, euclidean_distance_self]
    exact min_eq_right (euclidean_distance_nonneg _ _)

/-- Witness for C3 at the concrete unit quaternions p = q = (1, 0, 0, 0). -/
theorem double_cover_metric_witness :
    gnorm ⟨1, 0, 0, 0⟩ = 1 ∧
    (quat_is_equal ⟨1, 0, 0, 0⟩ (gneg ⟨1, 0, 0, 0⟩) DEFAULT_TOLERANCE ∧
     qdistance ⟨1, 0, 0, 0⟩ (gneg ⟨1, 0, 0, 0⟩) = 0 ∧
     qdistance ⟨1, 0, 0, 0⟩ ⟨1, 0, 0, 0⟩ =
       min (euclidean_distance ⟨1, 0, 0, 0⟩ ⟨1, 0, 0, 0⟩)
           (euclidean_distance ⟨1, 0, 0, 0⟩ (gneg ⟨1, 0, 0, 0⟩))) := by
  have h1 : gnorm ⟨1, 0, 0, 0⟩ = 1 := by
    unfold gnorm
    norm_num
  exact ⟨h1, double_cover_metric ⟨1, 0, 0, 0⟩ ⟨1, 0, 0, 0⟩ h1 h1⟩

/- ## Logarithm (`log`) and rotation vector -/

/-- `np.arctan2(y, x)`: four-quadrant arctangent. -/
noncomputable def npArctan2 (y x : ℝ) : ℝ :=
  if 0 < x then Real.arctan (y / x)
  else if x < 0 then
    (if 0 ≤ y then Real.arctan (y / x) + Real.pi else Real.arctan (y / x) - Real.pi)
  else
    (if 0 < y then Real.pi / 2 else if y < 0 then -(Real.pi / 2) else 0)

/-- The norm of `imag = (qi, qj, qk) / norm` computed by `Quaternion.log`. -/
noncomputable def imagNormOf (q : GeneralQuaternion) : ℝ :=
  Real.sqrt ((q.qi / gnorm q) ^ 2 + (q.qj / gnorm q) ^ 2 + (q.qk / gnorm q) ^ 2)

/-- `Quaternion.log()`: if the norm of the scaled imaginary part is zero,
return `(log norm, 0 if qr > 0 else pi, 0, 0)`; otherwise scale the unit
imaginary direction by `arctan2(imag_norm, qr / norm)`. -/
noncomputable def glog (q : GeneralQuaternion) : GeneralQuaternion :=
  if imagNormOf q = 0 then
    ⟨Real.log (gnorm q), if 0 < q.qr then 0 else Real.pi, 0, 0⟩
  else
    ⟨Real.log (gnorm q),
     q.qi / gnorm q / imagNormOf q * npArctan2 (imagNormOf q) (q.qr / gnorm q),
     q.qj / gnorm q / imagNormOf q * npArctan2 (imagNormOf q) (q.qr / gnorm q),
     q.qk / gnorm q / imagNormOf q * npArctan2 (imagNormOf q) (q.qr / gnorm q)⟩

/-- A 3-vector value (rotation vectors, rotated vectors). -/
structure V3 where
  x : ℝ
  y : ℝ
  z : ℝ

/-- `Quaternion.rotation_vector`: the imaginary coordinates of `2 * log()`. -/
noncomputable def rotation_vector (q : GeneralQuaternion) : V3 :=
  ⟨(gscale 2 (glog q)).qi, (gscale 2 (glog q)).qj, (gscale 2 (glog q)).qk⟩

/-- C6: for a unit quaternion whose imaginary part has zero norm, `log` takes
the explicit special-case branch and returns `(log norm, pi, 0, 0)` when
`qr <= 0` and `(log norm, 0, 0, 0)` otherwise; no error is raised. -/
theorem log_zero_imaginary (q : GeneralQuaternion)
    (hq : gnorm q = 1) (hzero : imagNormOf q = 0) :
    glog q = ⟨Real.log (gnorm q), if q.qr ≤ 0 then Real.pi else 0, 0, 0⟩ := by
  unfold glog
  rw [if_pos hzero]
  have hbranch : (if 0 < q.qr then (0 : ℝ) else Real.pi)
      = if q.qr ≤ 0 then Real.pi else 0 := by
    rcases le_or_lt q.qr 0 with h | h
    · rw [if_neg (not_lt.mpr h), if_pos h]
    · rw [if_pos h, if_neg (not_le.mpr h)]
  rw [hbranch]

/-- Witness for C6 at the concrete unit quaternion (-1, 0, 0, 0): the branch
returns (log 1, pi, 0, 0). -/
theorem log_zero_imaginary_witness :
    gnorm ⟨-1, 0, 0, 0⟩ = 1 ∧ imagNormOf ⟨-1, 0, 0, 0⟩ = 0 ∧
    glog ⟨-1, 0, 0, 0⟩ =
      ⟨Real.log (gnorm ⟨-1, 0, 0, 0⟩),
       if (⟨-1, 0, 0, 0⟩ : GeneralQuaternion).qr ≤ 0 then Real.pi else 0, 0, 0⟩ := by
  have h1 : gnorm ⟨-1, 0, 0, 0⟩ = 1 := by
    unfold gnorm
    norm_num
  have h0 : imagNormOf ⟨-1, 0, 0, 0⟩ = 0 := by
    unfold imagNormOf
    norm_num
  exact ⟨h1, h0, log_zero_imaginary ⟨-1, 0, 0, 0⟩ h1 h0⟩

/- ## Canonical sign (`positive_representant`) -/

/-- `Quaternion.positive_representant`: scan (qr, qi, qj, qk); on the first
positive coordinate return `self`, on the first negative one return `-self`;
fall through (returning nothing) when all are zero. -/
noncomputable def positive_representant (q : GeneralQuaternion) : Option GeneralQuaternion :=
  if 0 < q.qr then some q else if q.qr < 0 then some (gneg q) else
  if 0 < q.qi then some q else if q.qi < 0 then some (gneg q) else
  if 0 < q.qj then some q else if q.qj < 0 then some (gneg q) else
  if 0 < q.qk then some q else if q.qk < 0 then some (gneg q) else none

/-- The first nonzero entry of a list of reals (the claim's scan order
tie-break), used to state C8 in the spec's words. -/
noncomputable def firstNonzero : List ℝ → Option ℝ
  | [] => none
  | x :: xs => if x ≠ 0 then some x else firstNonzero xs

/-- C8: for a unit quaternion, `positive_representant` returns `q` when the
first nonzero coordinate in the order (qr, qi, qj, qk) is positive, and `-q`
when it is negative. -/
theorem positive_representant_first_nonzero (q : GeneralQuaternion)
    (hq : gnorm q = 1) :
    ∃ c, firstNonzero [q.qr, q.qi, q.qj, q.qk] = some c ∧
      positive_representant q = some (if 0 < c then q else gneg q) := by
  unfold positive_representant
  rcases lt_trichotomy q.qr 0 with hr | hr | hr
  · refine ⟨q.qr, ?_, ?_⟩
    · simp [firstNonzero, hr.ne]
    · rw [if_neg (not_lt.mpr (le_of_lt hr)), if_pos hr, if_neg (not_lt.mpr (le_of_lt hr))]
  · rcases lt_trichotomy q.qi 0 with hi | hi | hi
    · refine ⟨q.qi, ?_, ?_⟩
      · simp [firstNonzero, hr, hi.ne]
      · rw [if_neg (by simp [hr]), if_neg (by simp [hr]),
            if_neg (not_lt.mpr (le_of_lt hi)), if_pos hi, if_neg (not_lt.mpr (le_of_lt hi))]
    · rcases lt_trichotomy q.qj 0 with hj | hj | hj
      · refine ⟨q.qj, ?_, ?_⟩
        · simp [firstNonzero, hr, hi, hj.ne]
        · rw [if_neg (by simp [hr]), if_neg (by simp [hr]),
              if_neg (by simp [hi]), if_neg (by simp [hi]),
              if_neg (not_lt.mpr (le_of_lt hj)), if_pos hj, if_neg (not_lt.mpr (le_of_lt hj))]
      · rcases lt_trichotomy q.qk 0 with hk | hk | hk
        · refine ⟨q.qk, ?_, ?_⟩
          · simp [firstNonzero, hr, hi, hj, hk.ne]
          · rw [if_neg (by simp [hr]), if_neg (by simp [hr]),
                if_neg (by simp [hi]), if_neg (by simp [hi]),
                if_neg (by simp [hj]), if_neg (by simp [hj]),
                if_neg (not_lt.mpr (le_of_lt hk)), if_pos hk,
                if_neg (not_lt.mpr (le_of_lt hk))]
        · exfalso
          rw [gnorm_eq_one_iff, hr, hi, hj, hk] at hq
          norm_num at hq
        · refine ⟨q.qk, ?_, ?_⟩
          · simp [firstNonzero, hr, hi, hj, hk.ne']
          · rw [if_neg (by simp [hr]), if_neg (by simp [hr]),
                if_neg (by simp [hi]), if_neg (by simp [hi]),
                if_neg (by simp [hj]), if_neg (by simp [hj]),
                if_pos hk, if_pos hk]
      · refine ⟨q.qj, ?_, ?_⟩
        · simp [firstNonzero, hr, hi, hj.ne']
        · rw [if_neg (by simp [hr]), if_neg (by simp [hr]),
              if_neg (by simp [hi]), if_neg (by simp [hi]),
              if_pos hj, if_pos hj]
    · refine ⟨q.qi, ?_, ?_⟩
      · simp [firstNonzero, hr, hi.ne']
      · rw [if_neg (by simp [hr]), if_neg (by simp [hr]), if_pos hi, if_pos hi]
  · refine ⟨q.qr, ?_, ?_⟩
    · simp [firstNonzero, hr.ne']
    · rw [if_pos hr, if_pos hr]

/-- Witness for C8 at the concrete unit quaternion (0, -1, 0, 0): the first
nonzero coordinate is -1, so the representant is the negation. -/
theorem positive_representant_witness :
    gnorm ⟨0, -1, 0, 0⟩ = 1 ∧
    ∃ c, firstNonzero [(0 : ℝ), -1, 0, 0] = some c ∧
      positive_representant ⟨0, -1, 0, 0⟩ =
        some (if 0 < c then ⟨0, -1, 0, 0⟩ else gneg ⟨0, -1, 0, 0⟩) := by
  have h1 : gnorm ⟨0, -1, 0, 0⟩ = 1 := by
    unfold gnorm
    norm_num
  exact ⟨h1, positive_representant_first_nonzero ⟨0, -1, 0, 0⟩ h1⟩

/- ## Rotation matrix and the polymorphic multiplication -/

/-- A 3x3 real matrix, row-major fields `mRC`. -/
structure Mat3 where
  m00 : ℝ
  m01 : ℝ
  m02 : ℝ
  m10 : ℝ
  m11 : ℝ
  m12 : ℝ
  m20 : ℝ
  m21 : ℝ
  m22 : ℝ

/-- `Quaternion.matrix`: the 3x3 rotation matrix of (qr, qi, qj, qk). -/
def matrix (q : GeneralQuaternion) : Mat3 :=
  ⟨q.qr * q.qr + q.qi * q.qi - q.qj * q.qj - q.qk * q.qk,
   2 * (q.qi * q.qj + q.qr * q.qk),
   2 * (q.qi * q.qk - q.qr * q.qj),
   2 * (q.qi * q.qj - q.qr * q.qk),
   q.qr * q.qr - q.qi * q.qi + q.qj * q.qj - q.qk * q.qk,
   2 * (q.qj * q.qk + q.qr * q.qi),
   2 * (q.qi * q.qk + q.qr * q.qj),
   2 * (q.qj * q.qk - q.qr * q.qi),
   q.qr * q.qr - q.qi * q.qi - q.qj * q.qj + q.qk * q.qk⟩

/-- `self.matrix.dot(p)`: apply a 3x3 matrix to a 3-vector. -/
def matVec (m : Mat3) (v : V3) : V3 :=
  ⟨m.m00 * v.x + m.m01 * v.y + m.m02 * v.z,
   m.m10 * v.x + m.m11 * v.y + m.m12 * v.z,
   m.m20 * v.x + m.m21 * v.y + m.m22 * v.z⟩

/-- The runtime type of the right operand of `Quaternion.__mul__`, as the
`isinstance` chain distinguishes it. -/
inductive Operand where
  | quat : GeneralQuaternion → Operand
  | scalar : ℝ → Operand
  | general : GeneralQuaternion → Operand
  | vector : V3 → Operand
  | other : Operand

/-- The possible outcomes of `Quaternion.__mul__`: a re-wrapped unit
quaternion, an unwrapped base-algebra value, a rotated 3-vector, or a raised
`QuaternionError`. -/
inductive MulResult where
  | unit : GeneralQuaternion → MulResult
  | general : GeneralQuaternion → MulResult
  | vector : V3 → MulResult
  | raised : QuaternionError → MulResult

/-- `Quaternion.__mul__(p)`: a `Quaternion` or a scalar operand goes through
the base-algebra product and is re-wrapped by the normalizing constructor; a
plain `GeneralQuaternion` yields the unwrapped base-algebra product; a
3-vector is rotated by `matrix`; anything else raises. -/
noncomputable def quaternionMul (q : GeneralQuaternion) (p : Operand) : MulResult :=
  match p with
  | .quat p =>
      match quaternionNew (gmul q p).qr (gmul q p).qi (gmul q p).qj (gmul q p).qk with
      | .ok r => .unit r
      | .error e => .raised e
  | .scalar s =>
      match quaternionNew (s * q.qr) (s * q.qi) (s * q.qj) (s * q.qk) with
      | .ok r => .unit r
      | .error e => .raised e
  | .general p => .general (gmul q p)
  | .vector v => .vector (matVec (matrix q) v)
  | .other => .raised (.unsupportedOperand "cant multiply by unsupported operand type")

/-- `Quaternion.__call__(p)`: calling a quaternion multiplies by it. -/
noncomputable def quaternionCall (q : GeneralQuaternion) (p : Operand) : MulResult :=
  quaternionMul q p

lemma gnorm_scaled_coords (s : ℝ) (q : GeneralQuaternion) :
    gnorm ⟨s * q.qr, s * q.qi, s * q.qj, s * q.qk⟩ = |s| * gnorm q :=
  gnorm_scale s q

/-- C1 counterexample: at the unit quaternion (1, 0, 0, 0) and scalar 2, the
product is *not* the unwrapped base-algebra value (2, 0, 0, 0); the code
re-wraps the scalar product through the normalizing constructor. -/
theorem scalar_mul_not_unwrapped :
    quaternionMul gUnit (Operand.scalar 2) ≠ MulResult.general (gscale 2 gUnit) ∧
    quaternionMul gUnit (Operand.scalar 2) = MulResult.unit ⟨1, 0, 0, 0⟩ := by
  have hn : gnorm ⟨2 * (1 : ℝ), 2 * 0, 2 * 0, 2 * 0⟩ = 2 := by
    unfold gnorm
    rw [show ((2 * (1 : ℝ)) ^ 2 + (2 * 0) ^ 2 + (2 * 0) ^ 2 + (2 * 0) ^ 2) = 2 ^ 2 by norm_num]
    exact Real.sqrt_sq (by norm_num)
  have hok : quaternionNew (2 * (1 : ℝ)) (2 * 0) (2 * 0) (2 * 0) = .ok ⟨1, 0, 0, 0⟩ := by
    rw [quaternionNew_ok (by rw [hn]; unfold DEFAULT_TOLERANCE; norm_num)]
    rw [hn]
    norm_num
  have hmul : quaternionMul gUnit (Operand.scalar 2) = MulResult.unit ⟨1, 0, 0, 0⟩ := by
    show (match quaternionNew ((2:ℝ) * gUnit.qr) (2 * gUnit.qi) (2 * gUnit.qj) (2 * gUnit.qk) with
      | Except.ok r => MulResult.unit r
      | Except.error e => MulResult.raised e) = MulResult.unit ⟨1, 0, 0, 0⟩
    unfold gUnit
    rw [hok]
  refine ⟨?_, hmul⟩
  rw [hmul]
  intro h
  exact MulResult.noConfusion h

/-- C1 (amended): for a unit quaternion q and a scalar s with |s| at or above
the tolerance, `q * s` re-wraps the base-algebra scalar product through the
normalizing constructor, returning the unit-quaternion value `(s/|s|) * q`. -/
theorem scalar_mul_renormalizes (q : GeneralQuaternion) (s : ℝ)
    (hq : gnorm q = 1) (hs : DEFAULT_TOLERANCE ≤ |s|) :
    quaternionMul q (Operand.scalar s) = MulResult.unit (gscale (s / |s|) q) := by
  have hn : gnorm ⟨s * q.qr, s * q.qi, s * q.qj, s * q.qk⟩ = |s| := by
    rw [gnorm_scaled_coords, hq, mul_one]
  have hnot : ¬ gnorm ⟨s * q.qr, s * q.qi, s * q.qj, s * q.qk⟩ < DEFAULT_TOLERANCE := by
    rw [hn]
    exact not_lt.mpr hs
  show (match quaternionNew (s * q.qr) (s * q.qi) (s * q.qj) (s * q.qk) with
    | Except.ok r => MulResult.unit r
    | Except.error e => MulResult.raised e) = MulResult.unit (gscale (s / |s|) q)
  rw [quaternionNew_ok hnot, hn]
  unfold gscale
  have h1 : s * q.qr / |s| = s / |s| * q.qr := by ring
  have h2 : s * q.qi / |s| = s / |s| * q.qi := by ring
  have h3 : s * q.qj / |s| = s / |s| * q.qj := by ring
  have h4 : s * q.qk / |s| = s / |s| * q.qk := by ring
  rw [h1, h2, h3, h4]

/-- Witness for the amended C1 at q = (1, 0, 0, 0), s = 2. -/
theorem scalar_mul_renormalizes_witness :
    gnorm gUnit = 1 ∧ DEFAULT_TOLERANCE ≤ |(2 : ℝ)| ∧
    quaternionMul gUnit (Operand.scalar 2) = MulResult.unit (gscale (2 / |(2 : ℝ)|) gUnit) := by
  have h1 : gnorm gUnit = 1 := by
    unfold gnorm gUnit
    norm_num
  have h2 : DEFAULT_TOLERANCE ≤ |(2 : ℝ)| := by
    unfold DEFAULT_TOLERANCE
    rw [abs_of_pos (by norm_num : (0 : ℝ) < 2)]
    norm_num
  exact ⟨h1, h2, scalar_mul_renormalizes gUnit 2 h1 h2⟩

/-- C10: for a unit quaternion q and a scalar s with |s| below the default
tolerance (in particular s = 0), `q * s` raises the numerical-instability
error, because the scalar branch re-wraps through the normalizing
constructor. -/
theorem scalar_mul_below_tolerance_raises (q : GeneralQuaternion) (s : ℝ)
    (hq : gnorm q = 1) (hs : |s| < DEFAULT_TOLERANCE) :
    quaternionMul q (Operand.scalar s) =
      MulResult.raised (.numericalInstability "provided numerically unstable quaternion") := by
  have hn : gnorm ⟨s * q.qr, s * q.qi, s * q.qj, s * q.qk⟩ = |s| := by
    rw [gnorm_scaled_coords, hq, mul_one]
  have hlt : gnorm ⟨s * q.qr, s * q.qi, s * q.qj, s * q.qk⟩ < DEFAULT_TOLERANCE := by
    rw [hn]
    exact hs
  show (match quaternionNew (s * q.qr) (s * q.qi) (s * q.qj) (s * q.qk) with
    | Except.ok r => MulResult.unit r
    | Except.error e => MulResult.raised e) =
      MulResult.raised (.numericalInstability "provided numerically unstable quaternion")
  rw [quaternionNew_error hlt]

/-- Witness for C10 at q = (1, 0, 0, 0), s = 0. -/
theorem scalar_mul_below_tolerance_raises_witness :
    gnorm gUnit = 1 ∧ |(0 : ℝ)| < DEFAULT_TOLERANCE ∧
    quaternionMul gUnit (Operand.scalar 0) =
      MulResult.raised (.numericalInstability "provided numerically unstable quaternion") := by
  have h1 : gnorm gUnit = 1 := by
    unfold gnorm gUnit
    norm_num
  have h2 : |(0 : ℝ)| < DEFAULT_TOLERANCE := by
    unfold DEFAULT_TOLERANCE
    norm_num
  exact ⟨h1, h2, scalar_mul_below_tolerance_raises gUnit 0 h1 h2⟩

/-- C9: multiplying (or calling) a unit quaternion with an operand that is not
a quaternion, a scalar, or a 3-vector raises the unsupported-operand error,
which is a different error kind than the numerical-instability error raised
on degenerate construction. -/
theorem unsupported_operand_raises (q : GeneralQuaternion) (hq : gnorm q = 1) :
    quaternionMul q Operand.other =
      MulResult.raised (.unsupportedOperand "cant multiply by unsupported operand type") ∧
    quaternionCall q Operand.other = quaternionMul q Operand.other ∧
    ∀ m m', (QuaternionError.unsupportedOperand m) ≠ (QuaternionError.numericalInstability m') := by
  refine ⟨rfl, rfl, ?_⟩
  intro m m' h
  exact QuaternionError.noConfusion h

/-- Witness for C9 at q = (1, 0, 0, 0). -/
theorem unsupported_operand_raises_witness :
    gnorm gUnit = 1 ∧
    quaternionMul gUnit Operand.other =
      MulResult.raised (.unsupportedOperand "cant multiply by unsupported operand type") := by
  have h1 : gnorm gUnit = 1 := by
    unfold gnorm gUnit
    norm_num
  exact ⟨h1, (unsupported_operand_raises gUnit h1).1⟩

/- ## Rotation-vector integration (`from_rotation_vector`,
`integrate_from_velocity_vectors`) -/

/-- Euclidean norm of a 3-vector of reals. -/
noncomputable def vnorm3 (b c d : ℝ) : ℝ := Real.sqrt (b ^ 2 + c ^ 2 + d ^ 2)

/-- Modelled from the spec: the base-algebra exponential map `exp` of a
4-vector (a, b, c, d), returning a base-algebra quaternion. -/
noncomputable def gexp (a b c d : ℝ) : GeneralQuaternion :=
  if vnorm3 b c d = 0 then ⟨Real.exp a, 0, 0, 0⟩
  else
    ⟨Real.exp a * Real.cos (vnorm3 b c d),
     Real.exp a * Real.sin (vnorm3 b c d) * (b / vnorm3 b c d),
     Real.exp a * Real.sin (vnorm3 b c d) * (c / vnorm3 b c d),
     Real.exp a * Real.sin (vnorm3 b c d) * (d / vnorm3 b c d)⟩

/-- `Quaternion.from_rotation_vector(xyz)`: exponentiate the 4-vector
`[0, xyz/2]`. -/
noncomputable def from_rotation_vector (xyz : V3) : GeneralQuaternion :=
  gexp 0 (0.5 * xyz.x) (0.5 * xyz.y) (0.5 * xyz.z)

/-- `Quaternion.integrate_from_velocity_vectors(vectors)`: exponentiate every
vector, reverse the list, reduce with the stored multiplication starting from
the identity quaternion, and return the rotation vector of the product.  With
the base-algebra `exp` of the spec, each `functools.reduce` step dispatches to
the `GeneralQuaternion` branch of `__mul__`, the plain base-algebra product. -/
noncomputable def integrate_from_velocity_vectors (vectors : List V3) : V3 :=
  rotation_vector (((vectors.map from_rotation_vector).reverse).foldl gmul gUnit)

/-- C7: `integrate_from_velocity_vectors` maps each 3-vector through
`from_rotation_vector`, composes the results with the stored multiplication in
reverse input order starting from the identity quaternion (1, 0, 0, 0), and
returns twice the imaginary part of the logarithm of the product. -/
theorem integrate_reverse_composition (vectors : List V3) :
    integrate_from_velocity_vectors vectors =
      ⟨2 * (glog ((vectors.map from_rotation_vector).foldr (fun q acc => gmul acc q) gUnit)).qi,
       2 * (glog ((vectors.map from_rotation_vector).foldr (fun q acc => gmul acc q) gUnit)).qj,
       2 * (glog ((vectors.map from_rotation_vector).foldr (fun q acc => gmul acc q) gUnit)).qk⟩ := by
  unfold integrate_from_velocity_vectors
  rw [List.foldl_reverse]
  unfold rotation_vector gscale
  rfl

/- ## Matrix-to-quaternion conversion (`from_matrix`) -/

/-- A 4-vector value. -/
structure Vec4 where
  v0 : ℝ
  v1 : ℝ
  v2 : ℝ
  v3 : ℝ

/-- `np.sign`. -/
noncomputable def npsign (x : ℝ) : ℝ := if 0 < x then 1 else if x < 0 then -1 else 0

/-- `np.trace` of a 3x3 matrix. -/
def mat3Trace (m : Mat3) : ℝ := m.m00 + m.m11 + m.m22

/-- `from_matrix` step 1: `qsquare = 1/4 * [1 + tr, d0, d1, d2]` with
`d = 1 + 2*diagonal - tr`, clipped below at 0. -/
noncomputable def fmQsquare (m : Mat3) : Vec4 :=
  ⟨max ((1 + mat3Trace m) / 4) 0,
   max ((1 + 2 * m.m00 - mat3Trace m) / 4) 0,
   max ((1 + 2 * m.m11 - mat3Trace m) / 4) 0,
   max ((1 + 2 * m.m22 - mat3Trace m) / 4) 0⟩

/-- `from_matrix` step 2: the row `signs_m[i]` of the symmetric sign matrix
with unit diagonal, whose strict upper triangle is, in `np.triu_indices`
order, the `np.sign`s of
`[m12-m21, m20-m02, m01-m10, m01+m10, m20+m02, m12+m21]`. -/
noncomputable def fmSignRow (m : Mat3) : ℕ → Vec4
  | 0 => ⟨1, npsign (m.m12 - m.m21), npsign (m.m20 - m.m02), npsign (m.m01 - m.m10)⟩
  | 1 => ⟨npsign (m.m12 - m.m21), 1, npsign (m.m01 + m.m10), npsign (m.m20 + m.m02)⟩
  | 2 => ⟨npsign (m.m20 - m.m02), npsign (m.m01 + m.m10), 1, npsign (m.m12 + m.m21)⟩
  | _ => ⟨npsign (m.m01 - m.m10), npsign (m.m20 + m.m02), npsign (m.m12 + m.m21), 1⟩

/-- `np.argmax` over a 4-vector: the first index attaining the maximum. -/
noncomputable def argmax4 (v : Vec4) : ℕ :=
  if v.v1 ≤ v.v0 ∧ v.v2 ≤ v.v0 ∧ v.v3 ≤ v.v0 then 0
  else if v.v2 ≤ v.v1 ∧ v.v3 ≤ v.v1 then 1
  else if v.v3 ≤ v.v2 then 2
  else 3

/-- `Quaternion.from_matrix(mat)`: signed square roots of the clipped squared
magnitudes, signs taken from the `argmax` row of the sign matrix, passed to
the normalizing constructor. -/
noncomputable def from_matrix (m : Mat3) : Except QuaternionError GeneralQuaternion :=
  quaternionNew
    (Real.sqrt (fmQsquare m).v0 * (fmSignRow m (argmax4 (fmQsquare m))).v0)
    (Real.sqrt (fmQsquare m).v1 * (fmSignRow m (argmax4 (fmQsquare m))).v1)
    (Real.sqrt (fmQsquare m).v2 * (fmSignRow m (argmax4 (fmQsquare m))).v2)
    (Real.sqrt (fmQsquare m).v3 * (fmSignRow m (argmax4 (fmQsquare m))).v3)

lemma npsign_of_pos {x : ℝ} (h : 0 < x) : npsign x = 1 := by
  unfold npsign
  rw [if_pos h]

lemma npsign_of_neg {x : ℝ} (h : x < 0) : npsign x = -1 := by
  unfold npsign
  rw [if_neg (asymm h), if_pos h]

lemma npsign_pm {x : ℝ} (h : x ≠ 0) : npsign x = 1 ∨ npsign x = -1 := by
  rcases h.lt_or_lt with h1 | h1
  · right
    exact npsign_of_neg h1
  · left
    exact npsign_of_pos h1

lemma sqrt_sq_diag (x : ℝ) (hx : x ≠ 0) : Real.sqrt (x ^ 2) * 1 = npsign x * x := by
  rw [mul_one, Real.sqrt_sq_eq_abs]
  rcases hx.lt_or_lt with h1 | h1
  · rw [abs_of_neg h1, npsign_of_neg h1]
    ring
  · rw [abs_of_pos h1, npsign_of_pos h1]
    ring

lemma sqrt_sq_mul_npsign (x y : ℝ) (hx : x ≠ 0) :
    Real.sqrt (y ^ 2) * npsign (4 * (x * y)) = npsign x * y := by
  rcases lt_trichotomy y 0 with hy | hy | hy
  · rw [Real.sqrt_sq_eq_abs, abs_of_neg hy]
    rcases hx.lt_or_lt with hx' | hx'
    · rw [npsign_of_pos (by nlinarith), npsign_of_neg hx']
      ring
    · rw [npsign_of_neg (by nlinarith), npsign_of_pos hx']
      ring
  · rw [hy]
    norm_num [npsign, Real.sqrt_zero]
  · rw [Real.sqrt_sq_eq_abs, abs_of_pos hy]
    rcases hx.lt_or_lt with hx' | hx'
    · rw [npsign_of_neg (by nlinarith), npsign_of_neg hx']
      ring
    · rw [npsign_of_pos (by nlinarith), npsign_of_pos hx']
      ring

lemma max_eq_of_eq_sq (x y : ℝ) (h : x = y ^ 2) : max x 0 = y ^ 2 := by
  rw [h]
  exact max_eq_left (sq_nonneg y)

lemma ne_zero_of_sq_pos {x : ℝ} (h : 0 < x ^ 2) : x ≠ 0 := by
  intro h0
  rw [h0] at h
  norm_num at h

lemma tol_le_one : DEFAULT_TOLERANCE ≤ 1 := by
  unfold DEFAULT_TOLERANCE
  norm_num

lemma quaternionNew_of_sign_unit (s a b c d : ℝ) (hs : s = 1 ∨ s = -1)
    (h : gnorm ⟨a, b, c, d⟩ = 1) :
    quaternionNew (s * a) (s * b) (s * c) (s * d) = .ok ⟨s * a, s * b, s * c, s * d⟩ := by
  have habs : |s| = 1 := by
    rcases hs with h1 | h1 <;> rw [h1] <;> norm_num
  have hn : gnorm ⟨s * a, s * b, s * c, s * d⟩ = 1 := by
    have hg : (⟨s * a, s * b, s * c, s * d⟩ : GeneralQuaternion) = gscale s ⟨a, b, c, d⟩ := rfl
    rw [hg, gnorm_scale, habs, h, one_mul]
  rw [quaternionNew_ok (by rw [hn]; exact not_lt.mpr tol_le_one)]
  rw [hn]
  simp

lemma quat_is_equal_sign (s : ℝ) (hs : s = 1 ∨ s = -1) (a b c d : ℝ) :
    quat_is_equal ⟨s * a, s * b, s * c, s * d⟩ ⟨a, b, c, d⟩ DEFAULT_TOLERANCE := by
  have htol : (0 : ℝ) ≤ DEFAULT_TOLERANCE := le_of_lt tol_pos
  rcases hs with h1 | h1
  · left
    rw [h1]
    unfold gIsEqual
    norm_num [htol]
  · right
    rw [h1]
    unfold gIsEqual gneg
    norm_num [htol]

/-- C4: for every unit quaternion (a, b, c, d), `from_matrix(matrix)` succeeds
and returns a quaternion equal to the original under `is_equal` (the recovered
value may differ by a global sign). -/
theorem from_matrix_roundtrip (a b c d : ℝ) (h : gnorm ⟨a, b, c, d⟩ = 1) :
    ∃ p, from_matrix (matrix ⟨a, b, c, d⟩) = .ok p ∧
      quat_is_equal p ⟨a, b, c, d⟩ DEFAULT_TOLERANCE := by
  have hsum : a ^ 2 + b ^ 2 + c ^ 2 + d ^ 2 = 1 := (gnorm_eq_one_iff _).mp h
  have hqs : fmQsquare (matrix ⟨a, b, c, d⟩) = ⟨a ^ 2, b ^ 2, c ^ 2, d ^ 2⟩ := by
    simp only [fmQsquare, mat3Trace, matrix]
    congr 1
    · exact max_eq_of_eq_sq _ _ (by linear_combination (-(1 / 4) : ℝ) * hsum)
    · exact max_eq_of_eq_sq _ _ (by linear_combination (-(1 / 4) : ℝ) * hsum)
    · exact max_eq_of_eq_sq _ _ (by linear_combination (-(1 / 4) : ℝ) * hsum)
    · exact max_eq_of_eq_sq _ _ (by linear_combination (-(1 / 4) : ℝ) * hsum)
  by_cases hA : b ^ 2 ≤ a ^ 2 ∧ c ^ 2 ≤ a ^ 2 ∧ d ^ 2 ≤ a ^ 2
  · have ha : a ≠ 0 := ne_zero_of_sq_pos (by nlinarith [hA.1, hA.2.1, hA.2.2])
    have hidx : argmax4 ⟨a ^ 2, b ^ 2, c ^ 2, d ^ 2⟩ = 0 := by
      unfold argmax4
      dsimp only
      rw [if_pos hA]
    have e1 : (matrix ⟨a, b, c, d⟩).m12 - (matrix ⟨a, b, c, d⟩).m21 = 4 * (a * b) := by
      simp only [matrix]
      ring
    have e2 : (matrix ⟨a, b, c, d⟩).m20 - (matrix ⟨a, b, c, d⟩).m02 = 4 * (a * c) := by
      simp only [matrix]
      ring
    have e3 : (matrix ⟨a, b, c, d⟩).m01 - (matrix ⟨a, b, c, d⟩).m10 = 4 * (a * d) := by
      simp only [matrix]
      ring
    refine ⟨⟨npsign a * a, npsign a * b, npsign a * c, npsign a * d⟩, ?_, ?_⟩
    · unfold from_matrix
      rw [hqs, hidx]
      dsimp only [fmSignRow]
      rw [e1, e2, e3]
      rw [sqrt_sq_diag a ha, sqrt_sq_mul_npsign a b ha, sqrt_sq_mul_npsign a c ha,
          sqrt_sq_mul_npsign a d ha]
      exact quaternionNew_of_sign_unit (npsign a) a b c d (npsign_pm ha) h
    · exact quat_is_equal_sign (npsign a) (npsign_pm ha) a b c d
  · by_cases hB : c ^ 2 ≤ b ^ 2 ∧ d ^ 2 ≤ b ^ 2
    · have hb2 : a ^ 2 < b ^ 2 := by
        push_neg at hA
        by_cases h1 : b ^ 2 ≤ a ^ 2
        · by_cases h2 : c ^ 2 ≤ a ^ 2
          · have h3 := hA h1 h2
            linarith [hB.2]
          · push_neg at h2
            linarith [hB.1]
        · exact not_le.mp h1
      have hb : b ≠ 0 := ne_zero_of_sq_pos (lt_of_le_of_lt (sq_nonneg a) hb2)
      have hidx : argmax4 ⟨a ^ 2, b ^ 2, c ^ 2, d ^ 2⟩ = 1 := by
        unfold argmax4
        dsimp only
        rw [if_neg hA, if_pos hB]
      have e1 : (matrix ⟨a, b, c, d⟩).m12 - (matrix ⟨a, b, c, d⟩).m21 = 4 * (b * a) := by
        simp only [matrix]
        ring
      have e2 : (matrix ⟨a, b, c, d⟩).m01 + (matrix ⟨a, b, c, d⟩).m10 = 4 * (b * c) := by
        simp only [matrix]
        ring
      have e3 : (matrix ⟨a, b, c, d⟩).m20 + (matrix ⟨a, b, c, d⟩).m02 = 4 * (b * d) := by
        simp only [matrix]
        ring
      refine ⟨⟨npsign b * a, npsign b * b, npsign b * c, npsign b * d⟩, ?_, ?_⟩
      · unfold from_matrix
        rw [hqs, hidx]
        dsimp only [fmSignRow]
        rw [e1, e2, e3]
        rw [sqrt_sq_mul_npsign b a hb, sqrt_sq_diag b hb, sqrt_sq_mul_npsign b c hb,
            sqrt_sq_mul_npsign b d hb]
        exact quaternionNew_of_sign_unit (npsign b) a b c d (npsign_pm hb) h
      · exact quat_is_equal_sign (npsign b) (npsign_pm hb) a b c d
    · by_cases hC : d ^ 2 ≤ c ^ 2
      · have hc2 : b ^ 2 < c ^ 2 := by
          push_neg at hB
          by_cases h1 : c ^ 2 ≤ b ^ 2
          · have h3 := hB h1
            linarith [hC]
          · exact not_le.mp h1
        have hc : c ≠ 0 := ne_zero_of_sq_pos (lt_of_le_of_lt (sq_nonneg b) hc2)
        have hidx : argmax4 ⟨a ^ 2, b ^ 2, c ^ 2, d ^ 2⟩ = 2 := by
          unfold argmax4
          dsimp only
          rw [if_neg hA, if_neg hB, if_pos hC]
        have e1 : (matrix ⟨a, b, c, d⟩).m20 - (matrix ⟨a, b, c, d⟩).m02 = 4 * (c * a) := by
          simp only [matrix]
          ring
        have e2 : (matrix ⟨a, b, c, d⟩).m01 + (matrix ⟨a, b, c, d⟩).m10 = 4 * (c * b) := by
          simp only [matrix]
          ring
        have e3 : (matrix ⟨a, b, c, d⟩).m12 + (matrix ⟨a, b, c, d⟩).m21 = 4 * (c * d) := by
          simp only [matrix]
          ring
        refine ⟨⟨npsign c * a, npsign c * b, npsign c * c, npsign c * d⟩, ?_, ?_⟩
        · unfold from_matrix
          rw [hqs, hidx]
          dsimp only [fmSignRow]
          rw [e1, e2, e3]
          rw [sqrt_sq_mul_npsign c a hc, sqrt_sq_mul_npsign c b hc, sqrt_sq_diag c hc,
              sqrt_sq_mul_npsign c d hc]
          exact quaternionNew_of_sign_unit (npsign c) a b c d (npsign_pm hc) h
        · exact quat_is_equal_sign (npsign c) (npsign_pm hc) a b c d
      · have hd2 : c ^ 2 < d ^ 2 := not_le.mp hC
        have hd : d ≠ 0 := ne_zero_of_sq_pos (lt_of_le_of_lt (sq_nonneg c) hd2)
        have hidx : argmax4 ⟨a ^ 2, b ^ 2, c ^ 2, d ^ 2⟩ = 3 := by
          unfold argmax4
          dsimp only
          rw [if_neg hA, if_neg hB, if_neg hC]
        have e1 : (matrix ⟨a, b, c, d⟩).m01 - (matrix ⟨a, b, c, d⟩).m10 = 4 * (d * a) := by
          simp only [matrix]
          ring
        have e2 : (matrix ⟨a, b, c, d⟩).m20 + (matrix ⟨a, b, c, d⟩).m02 = 4 * (d * b) := by
          simp only [matrix]
          ring
        have e3 : (matrix ⟨a, b, c, d⟩).m12 + (matrix ⟨a, b, c, d⟩).m21 = 4 * (d * c) := by
          simp only [matrix]
          ring
        refine ⟨⟨npsign d * a, npsign d * b, npsign d * c, npsign d * d⟩, ?_, ?_⟩
        · unfold from_matrix
          rw [hqs, hidx]
          dsimp only [fmSignRow]
          rw [e1, e2, e3]
          rw [sqrt_sq_mul_npsign d a hd, sqrt_sq_mul_npsign d b hd, sqrt_sq_mul_npsign d c hd,
              sqrt_sq_diag d hd]
          exact quaternionNew_of_sign_unit (npsign d) a b c d (npsign_pm hd) h
        · exact quat_is_equal_sign (npsign d) (npsign_pm hd) a b c d

/-- Witness for C4 at the concrete unit quaternion (1, 0, 0, 0). -/
theorem from_matrix_roundtrip_witness :
    gnorm ⟨1, 0, 0, 0⟩ = 1 ∧
    ∃ p, from_matrix (matrix ⟨1, 0, 0, 0⟩) = .ok p ∧
      quat_is_equal p ⟨1, 0, 0, 0⟩ DEFAULT_TOLERANCE := by
  have h1 : gnorm ⟨1, 0, 0, 0⟩ = 1 := by
    unfold gnorm
    norm_num
  exact ⟨h1, from_matrix_roundtrip 1 0 0 0 h1⟩

/- ## Davenport q-method (`from_qmethod`, `_first_eigenvector`) -/

/-- A 4x4 real matrix, row-major fields `aRC`. -/
structure Mat4 where
  (a00 a01 a02 a03 : ℝ)
  (a10 a11 a12 a13 : ℝ)
  (a20 a21 a22 a23 : ℝ)
  (a30 a31 a32 a33 : ℝ)

def mat3T (m : Mat3) : Mat3 :=
  ⟨m.m00, m.m10, m.m20, m.m01, m.m11, m.m21, m.m02, m.m12, m.m22⟩

def mat3Add (x y : Mat3) : Mat3 :=
  ⟨x.m00 + y.m00, x.m01 + y.m01, x.m02 + y.m02, x.m10 + y.m10, x.m11 + y.m11,
   x.m12 + y.m12, x.m20 + y.m20, x.m21 + y.m21, x.m22 + y.m22⟩

def mat3Sub (x y : Mat3) : Mat3 :=
  ⟨x.m00 - y.m00, x.m01 - y.m01, x.m02 - y.m02, x.m10 - y.m10, x.m11 - y.m11,
   x.m12 - y.m12, x.m20 - y.m20, x.m21 - y.m21, x.m22 - y.m22⟩

/-- The cross-covariance `B` of `from_qmethod`: `source.dot(target.T)`, with
`diag(probabilities)` interposed when given.  The 3xn observation matrices are
passed as their three rows. -/
noncomputable def qmethodB {n : ℕ} (s0 s1 s2 t0 t1 t2 : Fin n → ℝ)
    (prob : Option (Fin n → ℝ)) : Mat3 :=
  match prob with
  | some p =>
      ⟨∑ k, s0 k * p k * t0 k, ∑ k, s0 k * p k * t1 k, ∑ k, s0 k * p k * t2 k,
       ∑ k, s1 k * p k * t0 k, ∑ k, s1 k * p k * t1 k, ∑ k, s1 k * p k * t2 k,
       ∑ k, s2 k * p k * t0 k, ∑ k, s2 k * p k * t1 k, ∑ k, s2 k * p k * t2 k⟩
  | none =>
      ⟨∑ k, s0 k * t0 k, ∑ k, s0 k * t1 k, ∑ k, s0 k * t2 k,
       ∑ k, s1 k * t0 k, ∑ k, s1 k * t1 k, ∑ k, s1 k * t2 k,
       ∑ k, s2 k * t0 k, ∑ k, s2 k * t1 k, ∑ k, s2 k * t2 k⟩

/-- `Quaternion._first_eigenvector(matrix)`: `eig` abstracts the external
symmetric eigensolver `np.linalg.eigh` followed by taking the eigenvector of
the algebraically largest eigenvalue (`vecs[:, -1]`, already normalized); the
code then negates it as a whole if its first component is negative and feeds
it to the normalizing constructor. -/
noncomputable def firstEigenvector (eig : Mat4 → Vec4) (m : Mat4) :
    Except QuaternionError GeneralQuaternion :=
  if (eig m).v0 < 0 then
    quaternionNew (-(eig m).v0) (-(eig m).v1) (-(eig m).v2) (-(eig m).v3)
  else
    quaternionNew (eig m).v0 (eig m).v1 (eig m).v2 (eig m).v3

/-- `Quaternion.from_qmethod(source, target, probabilities)`: build `B`,
`sigma = trace(B)`, `S = B + B.T`, `Z = B - B.T`, take `(i, j, k) =
(Z[2,1], Z[0,2], Z[1,0])`, assemble `K` and return
`_first_eigenvector(K)`. -/
noncomputable def from_qmethod (eig : Mat4 → Vec4) {n : ℕ}
    (s0 s1 s2 t0 t1 t2 : Fin n → ℝ) (prob : Option (Fin n → ℝ)) :
    Except QuaternionError GeneralQuaternion :=
  let B := qmethodB s0 s1 s2 t0 t1 t2 prob
  let sigma := mat3Trace B
  let S := mat3Add B (mat3T B)
  let Z := mat3Sub B (mat3T B)
  let K : Mat4 := ⟨sigma, Z.m21, Z.m02, Z.m10,
                   Z.m21, S.m00 - sigma, S.m01, S.m02,
                   Z.m02, S.m10, S.m11 - sigma, S.m12,
                   Z.m10, S.m20, S.m21, S.m22 - sigma⟩
  firstEigenvector eig K

/-- The 4x4 matrix `K = [[sigma, z^t], [z, S - sigma*I3]]` written directly
from the spec's words: `sigma = trace(B)`, `S = B + B^t`,
`z = (B21 - B12, B02 - B20, B10 - B01)`. -/
noncomputable def KmatrixSpec (B : Mat3) : Mat4 :=
  ⟨B.m00 + B.m11 + B.m22, B.m21 - B.m12, B.m02 - B.m20, B.m10 - B.m01,
   B.m21 - B.m12, B.m00 + B.m00 - (B.m00 + B.m11 + B.m22), B.m01 + B.m10, B.m02 + B.m20,
   B.m02 - B.m20, B.m10 + B.m01, B.m11 + B.m11 - (B.m00 + B.m11 + B.m22), B.m12 + B.m21,
   B.m10 - B.m01, B.m20 + B.m02, B.m21 + B.m12, B.m22 + B.m22 - (B.m00 + B.m11 + B.m22)⟩

/-- C5: for every pair of 3xn observation matrices (and optional weights) and
every eigensolver, `from_qmethod` assembles exactly the symmetric matrix
`K = [[sigma, z^t], [z, S - sigma*I3]]` of the spec over the weighted
cross-covariance `B`, and returns the solver's eigenvector for the largest
eigenvalue, negated as a whole when its first (scalar) component is negative
and wrapped through the unit-quaternion constructor. -/
theorem qmethod_assembles_K (eig : Mat4 → Vec4) (n : ℕ)
    (s0 s1 s2 t0 t1 t2 : Fin n → ℝ) (prob : Option (Fin n → ℝ)) :
    from_qmethod eig s0 s1 s2 t0 t1 t2 prob =
      firstEigenvector eig (KmatrixSpec (qmethodB s0 s1 s2 t0 t1 t2 prob)) ∧
    ∀ m : Mat4, firstEigenvector eig m =
      (if (eig m).v0 < 0 then
        quaternionNew (-(eig m).v0) (-(eig m).v1) (-(eig m).v2) (-(eig m).v3)
      else
        quaternionNew (eig m).v0 (eig m).v1 (eig m).v2 (eig m).v3) := by
  constructor
  · simp only [from_qmethod]
    congr 1
  · intro m
    rfl

end Quaternions
